import Mathlib

/-!
Verification development for the expression core of `mvc.js`
(tokenizer `src/expr/Lexer.ts`, parser `src/expr/Parser.ts`,
AST node model `src/AST.ts`, common types `src/Common.ts`).

The TypeScript source is shallowly embedded: each class/function is
translated into a Lean definition with the same name where Lean's
lexical rules permit (token names such as `true`, `false`, `in`, `end`
clash with Lean keywords and are prefixed with `t`).  Fallible
operations return `Except String _`, where the `String` carried by the
error is the text that `MVC.SyntaxError` embeds in its message — the
parser's `originalInput` — so "carries the original input" is directly
observable on the error value.  Recursive descent is fueled: every
parser function structurally decreases a `Nat` fuel argument, and the
fuel supplied by the entry points is far larger than the number of
recursive calls any input of that length can cause; running out of fuel
is reported as an error (this also models the source's unbounded
recursion on `'('`, which never consumes the token and overflows the
stack — see `parseValue`).
-/

namespace MvcSpec

/-- The `Token` union type of `Lexer.ts` (names prefixed with `t`
because `true`, `false`, `in`, `end`, `begin` are Lean keywords). -/
inductive Token where
  | tbegin
  | tundefined
  | ttrue
  | tfalse
  | tin
  | tname
  | tdot
  | tnumber
  | tstring
  | toperator
  | tcomma
  | tleft
  | tright
  | tleftSquare
  | trightSquare
  | tpipe
  | tend
deriving DecidableEq, Repr

/-- JavaScript's `\s` for the characters this lexer can meet (ASCII
whitespace plus NBSP; the more exotic Unicode space characters are not
modelled). -/
def jsIsSpace (c : Char) : Bool :=
  c = ' ' || c = '\t' || c = '\n' || c = '\r' ||
    c.toNat = 11 || c.toNat = 12 || c.toNat = 160

/-- `[A-Za-z_]`, the first character of the `name` rule. -/
def isNameStart (c : Char) : Bool :=
  ('A' ≤ c && c ≤ 'Z') || ('a' ≤ c && c ≤ 'z') || c = '_'

/-- `[A-Za-z0-9_]`, a word character (also JavaScript's `\w`, used by
the `\b` boundary of the `in` rule). -/
def isWordChar (c : Char) : Bool :=
  isNameStart c || c.isDigit

/-- Body of the double-quoted string rule `/^"([^"](\\"))*"/` after the
opening quote: zero or more groups of one non-quote character followed
by a literal `\"`, then the closing quote.  (The regex is as written in
the source: the group has no `|`, so each iteration consumes exactly
three characters.)  Returns the matched characters (closing quote
included) and the rest.  The match is deterministic: an iteration
requires a non-quote first character and stopping requires a quote. -/
def dqBody : List Char → Option (List Char × List Char)
  | '"' :: rest => some (['"'], rest)
  | c :: '\\' :: '"' :: rest =>
    (dqBody rest).map (fun p => (c :: '\\' :: '"' :: p.1, p.2))
  | _ => none

/-- Body of the single-quoted string rule `/^'([^'](\\'))*'/`. -/
def sqBody : List Char → Option (List Char × List Char)
  | '\'' :: rest => some (['\''], rest)
  | c :: '\\' :: '\'' :: rest =>
    (sqBody rest).map (fun p => (c :: '\\' :: '\'' :: p.1, p.2))
  | _ => none

/-- The operator and punctuation rules of `Lexer.next`, in source
order: the three-character operators `/^\>\>\>|\=\=\=|\!\=\=/`, then
the two-character operators, then the one-character operators, then
`, ( ) [ ] |`.  An ordered alternation of plain literals is equivalent
to trying each literal prefix in order. -/
def operatorRules : List (String × Token) :=
  [(">>>", .toperator), ("===", .toperator), ("!==", .toperator),
   ("**", .toperator), ("<<", .toperator), (">>", .toperator),
   ("<=", .toperator), (">=", .toperator), ("==", .toperator),
   ("!=", .toperator), ("??", .toperator), ("&&", .toperator),
   ("||", .toperator),
   ("+", .toperator), ("-", .toperator), ("*", .toperator),
   ("/", .toperator), ("%", .toperator), ("<", .toperator),
   (">", .toperator), ("!", .toperator),
   (",", .tcomma), ("(", .tleft), (")", .tright),
   ("[", .tleftSquare), ("]", .trightSquare), ("|", .tpipe)]

/-- First operator/punctuation rule of `operatorRules` matching a
prefix of the input. -/
def lexOperators (input : List Char) : Option (Token × List Char × List Char) :=
  operatorRules.findSome? fun r =>
    if r.1.data.isPrefixOf input then some (r.2, r.1.data, input.drop r.1.length)
    else none

/-- One attempt of each lexical rule of `Lexer.next`, in the source's
priority order (the `switch (true)` cascade of `case this._match(...)`
lines).  Returns the token, the matched label and the remaining input,
or `none` when no rule matches. -/
def lexRules (input : List Char) : Option (Token × List Char × List Char) :=
  if "undefined".data.isPrefixOf input then
    some (.tundefined, "undefined".data, input.drop 9)
  else if "true".data.isPrefixOf input then
    some (.ttrue, "true".data, input.drop 4)
  else if "false".data.isPrefixOf input then
    some (.tfalse, "false".data, input.drop 5)
  else if "in".data.isPrefixOf input
      && !((input.drop 2).headD ' ' |> isWordChar) then
    -- /^in\b/: `in` only matches when not followed by a word character
    some (.tin, "in".data, input.drop 2)
  else
    match input with
    | [] => none
    | c :: cs =>
      if isNameStart c then
        -- /^[A-Za-z_][A-Za-z0-9_]*/
        some (.tname, c :: cs.takeWhile isWordChar, cs.dropWhile isWordChar)
      else if c = '.' then some (.tdot, ['.'], cs)
      else if c.isDigit then
        -- /^[0-9]+/
        some (.tnumber, c :: cs.takeWhile Char.isDigit, cs.dropWhile Char.isDigit)
      else if c = '"' then
        match dqBody cs with
        | some (body, rest) => some (.tstring, '"' :: body, rest)
        | none => lexOperators input
      else if c = '\'' then
        match sqBody cs with
        | some (body, rest) => some (.tstring, '\'' :: body, rest)
        | none => lexOperators input
      else lexOperators input

/-- The `Lexer` class state: the original input (kept for
`SyntaxError(originalInput)`), the remaining input, and the current
token/label pair. -/
structure LexState where
  orig : String
  rest : List Char
  token : Token
  label : String
deriving Repr

/-- `Lexer.next()`.  The source first returns `end` on empty input,
otherwise strips `/^\s+/` and recurses; stripping the maximal
whitespace run once and matching is equivalent (after the strip the
recursive call cannot strip again), so the whitespace recursion is
flattened here. -/
def lexNext (st : LexState) : Except String LexState :=
  let input := st.rest.dropWhile jsIsSpace
  if input.isEmpty then
    .ok { st with rest := [], token := .tend, label := "" }
  else
    match lexRules input with
    | some (t, lbl, rest') =>
      .ok { st with rest := rest', token := t, label := ⟨lbl⟩ }
    | none => .error st.orig  -- throw new MVC.SyntaxError(this.originalInput)

/-- `Lexer.step()`: return the current label and advance. -/
def lexStep (st : LexState) : Except String (String × LexState) :=
  match lexNext st with
  | .ok st' => .ok (st.label, st')
  | .error e => .error e

/-- `Lexer.expect(...tokens)`: accept only one of the given tokens,
then behave like `step()`. -/
def lexExpect (st : LexState) (tokens : List Token) : Except String (String × LexState) :=
  if st.token ∈ tokens then lexStep st else .error st.orig

/-- A fresh lexer for `input` (the `Lexer` constructor), before the
first `next()`: token `begin`, empty label. -/
def lexInit (input : String) : LexState :=
  ⟨input, input.data, .tbegin, ""⟩

/-- Run the lexer to exhaustion, collecting the (token, label) pairs it
produces before `end` (diagnostic view of the token stream; fueled by
the input length, each `next()` consumes at least one character). -/
def tokensFrom : Nat → LexState → Except String (List (Token × String))
  | 0, st => .error st.orig
  | fuel + 1, st =>
    match lexNext st with
    | .error e => .error e
    | .ok st' =>
      if st'.token = .tend then .ok []
      else (tokensFrom fuel st').map ((st'.token, st'.label) :: ·)

/-- The full token stream of `input`. -/
def tokenize (input : String) : Except String (List (Token × String)) :=
  tokensFrom (input.length + 1) (lexInit input)

/-- An exact rational as a plain numerator/denominator pair (not
normalised; the denominator is kept positive by every operation
below).  The expression language's numeric literals are unsigned
decimal integers and the claims only exercise exact integer
arithmetic, where IEEE doubles and exact rationals agree, so exact
rationals stand in for JavaScript numbers; inexact float rounding and
`Infinity` are outside the model. -/
structure JsRat where
  num : Int
  den : Nat
deriving DecidableEq, Repr

instance (n : Nat) : OfNat JsRat n := ⟨⟨(n : Int), 1⟩⟩

/-- Does the rational denote an integer? -/
def JsRat.isInt (q : JsRat) : Bool :=
  q.num.emod (q.den : Int) = 0

/-- Truncation toward zero (the float-to-integer step of JavaScript's
`ToInt32`, and the integer value of an `isInt` rational). -/
def JsRat.trunc (q : JsRat) : Int :=
  q.num.tdiv (q.den : Int)

/-- Addition. -/
def JsRat.add (a b : JsRat) : JsRat :=
  ⟨a.num * (b.den : Int) + b.num * (a.den : Int), a.den * b.den⟩

/-- Subtraction. -/
def JsRat.sub (a b : JsRat) : JsRat :=
  ⟨a.num * (b.den : Int) - b.num * (a.den : Int), a.den * b.den⟩

/-- Multiplication. -/
def JsRat.mul (a b : JsRat) : JsRat :=
  ⟨a.num * b.num, a.den * b.den⟩

/-- Exact division (callers guard against a zero divisor); the
denominator stays positive by moving the divisor's sign into the
numerator. -/
def JsRat.divBy (a b : JsRat) : JsRat :=
  if 0 ≤ b.num then ⟨a.num * (b.den : Int), a.den * b.num.toNat⟩
  else ⟨-(a.num * (b.den : Int)), a.den * b.num.natAbs⟩

/-- Negation. -/
def JsRat.neg (a : JsRat) : JsRat :=
  ⟨-a.num, a.den⟩

/-- Natural power. -/
def JsRat.powNat (a : JsRat) (n : Nat) : JsRat :=
  ⟨a.num ^ n, a.den ^ n⟩

/-- Reciprocal (callers guard against zero); the sign moves into the
numerator. -/
def JsRat.reciprocal (a : JsRat) : JsRat :=
  if 0 ≤ a.num then ⟨(a.den : Int), a.num.toNat⟩
  else ⟨-(a.den : Int), a.num.natAbs⟩

/-- Equality of the denoted rationals (cross multiplication; the
pairs are not normalised). -/
def JsRat.eqv (a b : JsRat) : Bool :=
  a.num * (b.den : Int) = b.num * (a.den : Int)

/-- Strict order of the denoted rationals. -/
def JsRat.ltv (a b : JsRat) : Bool :=
  a.num * (b.den : Int) < b.num * (a.den : Int)

/-- Order of the denoted rationals. -/
def JsRat.lev (a b : JsRat) : Bool :=
  a.num * (b.den : Int) ≤ b.num * (a.den : Int)

/-- Is the denoted rational zero? -/
def JsRat.isZero (q : JsRat) : Bool :=
  q.num = 0

/-- A JavaScript number: an exact rational or `NaN`.  (`Infinity` and
`-Infinity` are outside the model; the few operations that would
produce them report an explicit evaluation error instead.) -/
inductive JsNum where
  | val (q : JsRat)
  | nan
deriving DecidableEq, Repr

/-- The value stored by a `LiteralNode` (`LiteralValue` in the source:
`undefined`, boolean, number, or string). -/
inductive LitValue where
  | undef
  | boolean (b : Bool)
  | number (q : JsRat)
  | string (s : String)
deriving DecidableEq, Repr

mutual

/-- A dynamically-typed runtime value: the tagged union
undefined/boolean/number/string/array/object of the source's value
model (`Dictionary` is the string-keyed object form).  Arrays and
object entry lists are separate inductives so that all recursions stay
structural.  Callable values are outside the model: the parser never
produces `Bind`/`Pipe` nodes, and calling any of the modelled values
throws `TypeError` in JavaScript, which evaluation mirrors with an
error. -/
inductive Value where
  | undef
  | boolean (b : Bool)
  | number (n : JsNum)
  | string (s : String)
  | array (elements : ValueList)
  | object (entries : ValueEntries)

/-- A JavaScript array of values. -/
inductive ValueList where
  | nil
  | cons (head : Value) (tail : ValueList)

/-- The insertion-ordered entries of a string-keyed object. -/
inductive ValueEntries where
  | nil
  | cons (key : String) (value : Value) (tail : ValueEntries)

end

mutual

/-- The AST node variants of `AST.ts` (classes `LiteralNode`,
`VariableNode`, `UnaryNode`, `BinaryNode`, `BindNode`, `PipeNode`)
together with the node kinds the parser references whose class bodies
are not under `src/` (`ReferenceNode` with its path components,
`StaticFragmentNode`, `InterpolatedNode`, `CollectionIterationNode`,
`DictionaryIterationNode`); those are modelled from the spec where
noted on their operations.  Node lists and component lists are separate
inductives so recursion stays structural. -/
inductive Node where
  | literal (value : LitValue)
  | variableRef (name : String)  -- VariableNode
  | unary (operator : String) (inner : Node)
  | binary (operator : String) (left : Node) (right : Node)
  | bind (name : String) (parameters : NodeList)
  | pipe (left : Node) (right : Node)
  | reference (components : PathComponentList)
  | staticFragment (text : String)
  | interpolated (fragments : NodeList)
  | collectionIteration (name : String) (source : Node)
  | dictionaryIteration (keyName : String) (valueName : String) (source : Node)

/-- A sequence of AST nodes (`NodeInterface[]`). -/
inductive NodeList where
  | nil
  | cons (head : Node) (tail : NodeList)

/-- A `Reference`'s path: `FieldComponent(name)` and
`SubscriptComponent(index)` links (`PathComponentInterface[]`). -/
inductive PathComponentList where
  | nil
  | consField (name : String) (tail : PathComponentList)
  | consSubscript (index : Node) (tail : PathComponentList)

end

/-- The `unique` helper of `AST.ts`:
`[...new Set(array.concat(...elements))]`.  The variadic arguments are
taken already flattened into one list; a JavaScript `Set` iterates in
insertion order, so the result keeps the first occurrence of each
element, in order. -/
def uniqueAux (seen : List String) : List String → List String
  | [] => []
  | x :: xs => if x ∈ seen then uniqueAux seen xs else x :: uniqueAux (x :: seen) xs

/-- First-occurrence de-duplication, as produced by
`[...new Set(...)]`. -/
def unique (l : List String) : List String := uniqueAux [] l

/-- The root name of a reference path: the parser always builds
`ReferenceNode` with a leading `FieldComponent` holding the root
variable name. -/
def refRootName : PathComponentList → List String
  | .consField name _ => [name]
  | _ => []

mutual

/-- `free()` of each node class.  For the classes in `src/AST.ts` this
is the source's code (`LiteralNode` → `[]`, `VariableNode` →
`[this.name]`, `UnaryNode` → `inner.free()`, `BinaryNode`/`PipeNode` →
`unique(left.free(), right.free())`, `BindNode` →
`unique(this.name, ...parameters.map(p => p.free()))`).

Modelled from the spec: `ReferenceNode.free`, `StaticFragmentNode.free`,
`InterpolatedNode.free` and the iteration nodes' `free` are missing
from `src/`; per the spec's invariant each is the de-duplicated union
of its children's free sets, a reference's free set starting with its
root name (spec §8: `free()` of `a.b[1]` is exactly `["a"]`, so field
components past the root contribute nothing and subscript components
contribute their index expression's set). -/
def free : Node → List String
  | .literal _ => []
  | .variableRef name => [name]
  | .unary _ inner => free inner
  | .binary _ left right => unique (free left ++ free right)
  | .bind name parameters => unique (name :: freeNodeList parameters)
  | .pipe left right => unique (free left ++ free right)
  | .reference components =>
    unique (refRootName components ++ freeComponents components)
  | .staticFragment _ => []
  | .interpolated fragments => unique (freeNodeList fragments)
  | .collectionIteration _ source => free source
  | .dictionaryIteration _ _ source => free source

/-- Concatenation of the `free()` lists of a node sequence. -/
def freeNodeList : NodeList → List String
  | .nil => []
  | .cons n t => free n ++ freeNodeList t

/-- Concatenation of the `free()` contributions of path components:
field accesses read no variable, subscript components read their index
expression's variables. -/
def freeComponents : PathComponentList → List String
  | .nil => []
  | .consField _ t => freeComponents t
  | .consSubscript index t => free index ++ freeComponents t

end

/-- The raw (not yet de-duplicated) union that each node kind's
`free()` de-duplicates: the concatenation of the node's own contributed
name (root/bound name) and its children's free lists, in source
order. -/
def rawFree : Node → List String
  | .literal _ => []
  | .variableRef name => [name]
  | .unary _ inner => free inner
  | .binary _ left right => free left ++ free right
  | .bind name parameters => name :: freeNodeList parameters
  | .pipe left right => free left ++ free right
  | .reference components => refRootName components ++ freeComponents components
  | .staticFragment _ => []
  | .interpolated fragments => freeNodeList fragments
  | .collectionIteration _ source => free source
  | .dictionaryIteration _ _ source => free source

/-- Value of a digit run (the lexer's number labels; `parseFloat` on a
`[0-9]+` label is its decimal value). -/
def digitsToNat (l : List Char) : Nat :=
  l.foldl (fun a c => 10 * a + (c.toNat - 48)) 0

/-- Truncation toward zero of a rational (JavaScript's float-to-integer
step of `ToInt32`). -/
def jsTruncQ (q : JsRat) : Int :=
  q.trunc

/-- Wrap an integer into the signed 32-bit range, as `ToInt32` does
(modulo `2^32`, then shifted into `[-2^31, 2^31)`). -/
def int32Wrap (t : Int) : Int :=
  if 2147483648 ≤ t.emod 4294967296 then t.emod 4294967296 - 4294967296
  else t.emod 4294967296

/-- JavaScript truthiness (`!!v`): `undefined`, `false`, `0`, `NaN`
and the empty string are falsy; arrays and objects are truthy. -/
def jsToBoolean : Value → Bool
  | .undef => false
  | .boolean b => b
  | .number (.val q) => !q.isZero
  | .number .nan => false
  | .string s => s ≠ ""
  | .array _ => true
  | .object _ => true

/-- `Number(s)` for the string shapes the claims exercise: optional
surrounding whitespace, optional sign, decimal digits; the empty
string converts to `0` and anything else to `NaN`.  (JavaScript's full
numeric-string grammar — fractions, exponents, hex — is not modelled
and unexercised by the claims.) -/
def strToNumber (s : String) : JsNum :=
  let t := ((s.data.dropWhile jsIsSpace).reverse.dropWhile jsIsSpace).reverse
  match t with
  | [] => .val 0
  | '-' :: ds => if ds ≠ [] && ds.all Char.isDigit then .val ⟨-(digitsToNat ds : Int), 1⟩ else .nan
  | '+' :: ds => if ds ≠ [] && ds.all Char.isDigit then .val ⟨(digitsToNat ds : Int), 1⟩ else .nan
  | ds => if ds.all Char.isDigit then .val ⟨(digitsToNat ds : Int), 1⟩ else .nan

/-- JavaScript `ToNumber` (unary `+v`): `undefined` is `NaN`, booleans
are `0`/`1`, strings go through the numeric-string grammar.  For
arrays and objects JavaScript first applies `ToPrimitive`; that
conversion is not modelled and yields `NaN` here (unexercised by the
claims). -/
def jsToNumber : Value → JsNum
  | .undef => .nan
  | .boolean b => .val (if b then 1 else 0)
  | .number n => n
  | .string s => strToNumber s
  | .array _ => .nan
  | .object _ => .nan

mutual

/-- JavaScript `String(v)`: `"undefined"`, `"true"`/`"false"`,
decimal rendering of numbers, `"NaN"`, comma-joined elements for
arrays, `"[object Object]"` for plain objects.  Non-integral numbers
would use JavaScript's shortest-round-trip float formatting, which is
outside this model (rendered as `num/den`; unexercised by the
claims). -/
def jsToString : Value → String
  | .undef => "undefined"
  | .boolean b => if b then "true" else "false"
  | .number (.val q) =>
    if q.isInt then toString q.trunc else toString q.num ++ "/" ++ toString q.den
  | .number .nan => "NaN"
  | .string s => s
  | .array xs => jsToStringList xs
  | .object _ => "[object Object]"

/-- `Array.prototype.toString`: elements joined with `","`, with
`undefined` elements rendered empty (as `Array.prototype.join`
prescribes). -/
def jsToStringList : ValueList → String
  | .nil => ""
  | .cons .undef .nil => ""
  | .cons v .nil => jsToString v
  | .cons .undef tail => "," ++ jsToStringList tail
  | .cons v tail => jsToString v ++ "," ++ jsToStringList tail

end

/-- `~~v`: `ToInt32`, i.e. `ToNumber` then truncation toward zero and
a wrap into the signed 32-bit range; `NaN` becomes `0`. -/
def jsToInt32 (v : Value) : Int :=
  match jsToNumber v with
  | .nan => 0
  | .val q => int32Wrap (jsTruncQ q)

/-- `[].concat(v)`: an array contributes its elements, any other value
becomes a one-element array. -/
def jsToCollection : Value → ValueList
  | .array xs => xs
  | v => .cons v .nil

/-- Is the value a mapping (a string-keyed object)? -/
def isObject : Value → Bool
  | .object _ => true
  | _ => false

/-- `ToUint32`, used for shift counts and `>>>`. -/
def jsToUint32 (v : Value) : Nat :=
  match jsToNumber v with
  | .nan => 0
  | .val q => ((jsTruncQ q).emod 4294967296).toNat

/-- Is the value a string, array or object — the operands for which
the JavaScript `+` operator concatenates (after `ToPrimitive`, which
turns plain arrays and objects into their string form)? -/
def isStringish : Value → Bool
  | .string _ => true
  | .array _ => true
  | .object _ => true
  | _ => false

/-- Pointwise lift of a rational operation; `NaN` propagates. -/
def numBin (f : JsRat → JsRat → JsRat) : JsNum → JsNum → JsNum
  | .val a, .val b => .val (f a b)
  | _, _ => .nan

/-- Unary minus on a JavaScript number. -/
def negJs : JsNum → JsNum
  | .val q => .val q.neg
  | .nan => .nan

/-- `NaN`-aware equality of numbers (`NaN` is equal to nothing,
itself included). -/
def jsNumEq : JsNum → JsNum → Bool
  | .val a, .val b => a.eqv b
  | _, _ => false

/-- Strict equality `===`: equal only within the same type; `NaN !==
NaN`; arrays and objects compare by reference identity, and the model
has no shared references, so they are never strictly equal here. -/
def jsStrictEq : Value → Value → Bool
  | .undef, .undef => true
  | .boolean a, .boolean b => a = b
  | .number a, .number b => jsNumEq a b
  | .string a, .string b => a = b
  | _, _ => false

/-- Loose equality `==` on values whose booleans have already been
converted to numbers: `undefined` equals only `undefined`, a number
and a string compare through `ToNumber`, an array or object compares
through its primitive (string) form, and two objects compare by
reference identity (never equal in this model). -/
def jsLooseEqCore : Value → Value → Bool
  | .undef, .undef => true
  | .undef, _ => false
  | _, .undef => false
  | .number a, .number b => jsNumEq a b
  | .string a, .string b => a = b
  | .number a, .string s => jsNumEq a (strToNumber s)
  | .string s, .number b => jsNumEq (strToNumber s) b
  | .number a, v => jsNumEq a (strToNumber (jsToString v))
  | v, .number b => jsNumEq (strToNumber (jsToString v)) b
  | .string s, v => s = jsToString v
  | v, .string t => jsToString v = t
  | _, _ => false

/-- Loose equality `==`: booleans are first converted to numbers, as
`ToPrimitive`/`ToNumber` prescribe. -/
def jsLooseEq (l r : Value) : Bool :=
  let norm : Value → Value := fun v =>
    match v with
    | .boolean b => .number (.val (if b then 1 else 0))
    | v => v
  jsLooseEqCore (norm l) (norm r)

/-- String comparison for the relational operators (JavaScript
compares strings lexicographically by code unit). -/
def strRelCmp (op : String) (a b : String) : Bool :=
  if op = "<" then a < b
  else if op = "<=" then a < b || a = b
  else if op = ">" then b < a
  else b < a || a = b

/-- Rational comparison for the relational operators. -/
def qRelCmp (op : String) (a b : JsRat) : Bool :=
  if op = "<" then a.ltv b
  else if op = "<=" then a.lev b
  else if op = ">" then b.ltv a
  else b.lev a

/-- The key list of an object. -/
def entriesLookup : ValueEntries → String → Option Value
  | .nil, _ => none
  | .cons k v t, key => if k = key then some v else entriesLookup t key

/-- Does the object have the key? -/
def entriesHasKey (entries : ValueEntries) (key : String) : Bool :=
  (entriesLookup entries key).isSome

/-- Array length. -/
def valueListLength : ValueList → Nat
  | .nil => 0
  | .cons _ t => valueListLength t + 1

/-- Array indexing. -/
def valueListGet : ValueList → Nat → Option Value
  | .nil, _ => none
  | .cons v _, 0 => some v
  | .cons _ t, n + 1 => valueListGet t n

/-- The non-short-circuiting binary operators, as JavaScript applies
them to two already-evaluated operands (`BinaryNode.compile` emits
`(left)op(right)` and the host runtime supplies these semantics; the
spec directs implementing them explicitly).  Most operators coerce via
`ToNumber`; `+` concatenates when either operand is stringish;
`in` throws `TypeError` on a non-object right operand; the relational
operators are `false` whenever `NaN` is involved.  The few outcomes the
numeric model cannot represent (`Infinity` from division by zero or a
negative power of zero, float results of fractional exponents) are
reported as explicit errors. -/
def jsBinary (op : String) (l r : Value) : Except String Value :=
  if op = "**" then
    match jsToNumber l, jsToNumber r with
    | .val p, .val q =>
      if q.isInt then
        if 0 ≤ q.trunc then .ok (.number (.val (p.powNat q.trunc.toNat)))
        else if !p.isZero then
          .ok (.number (.val ((p.powNat q.trunc.natAbs).reciprocal)))
        else .error "unsupported: 0 to a negative power is Infinity"
      else .error "unsupported: fractional exponent"
    | _, _ => .ok (.number .nan)
  else if op = "*" then .ok (.number (numBin JsRat.mul (jsToNumber l) (jsToNumber r)))
  else if op = "/" then
    match jsToNumber l, jsToNumber r with
    | .val a, .val b =>
      if b.isZero then .error "unsupported: division by zero is Infinity or NaN"
      else .ok (.number (.val (a.divBy b)))
    | _, _ => .ok (.number .nan)
  else if op = "%" then
    match jsToNumber l, jsToNumber r with
    | .val a, .val b =>
      if b.isZero then .ok (.number .nan)
      else .ok (.number (.val (a.sub (b.mul ⟨jsTruncQ (a.divBy b), 1⟩))))
    | _, _ => .ok (.number .nan)
  else if op = "+" then
    if isStringish l || isStringish r then
      .ok (.string (jsToString l ++ jsToString r))
    else .ok (.number (numBin JsRat.add (jsToNumber l) (jsToNumber r)))
  else if op = "-" then .ok (.number (numBin JsRat.sub (jsToNumber l) (jsToNumber r)))
  else if op = "<<" then
    .ok (.number (.val ⟨int32Wrap (jsToInt32 l * 2 ^ (jsToUint32 r % 32)), 1⟩))
  else if op = ">>" then
    .ok (.number (.val ⟨(jsToInt32 l).fdiv (2 ^ (jsToUint32 r % 32)), 1⟩))
  else if op = ">>>" then
    .ok (.number (.val ⟨(jsToUint32 l / 2 ^ (jsToUint32 r % 32) : Nat), 1⟩))
  else if op = "<" || op = "<=" || op = ">" || op = ">=" then
    match l, r with
    | .string a, .string b => .ok (.boolean (strRelCmp op a b))
    | _, _ =>
      match jsToNumber l, jsToNumber r with
      | .val a, .val b => .ok (.boolean (qRelCmp op a b))
      | _, _ => .ok (.boolean false)
  else if op = "in" then
    match r with
    | .object entries => .ok (.boolean (entriesHasKey entries (jsToString l)))
    | .array xs =>
      -- property check on an array: integer indices below the length
      -- exist ("length" and other built-in members are outside the model)
      match l with
      | .number (.val q) =>
        .ok (.boolean (q.isInt && 0 ≤ q.trunc && q.trunc < (valueListLength xs : Int)))
      | _ => .ok (.boolean false)
    | _ => .error "TypeError: cannot use in operator on a non-object"
  else if op = "==" then .ok (.boolean (jsLooseEq l r))
  else if op = "!=" then .ok (.boolean (!jsLooseEq l r))
  else if op = "===" then .ok (.boolean (jsStrictEq l r))
  else if op = "!==" then .ok (.boolean (!jsStrictEq l r))
  else .error ("unknown operator " ++ op)

/-- The context value a compiled expression is invoked with: a
key-unique, string-keyed mapping (`Dictionary` in `Common.ts`). -/
abbrev Ctx := List (String × Value)

/-- `this.name` on the context: the value bound to a key, or
JavaScript's `undefined` when absent. -/
def ctxLookup (ctx : Ctx) (name : String) : Option Value :=
  (ctx.find? (fun p => p.1 = name)).map (·.2)

/-- Field access `v.name`: throws on `undefined`, looks a key up on an
object, and yields `undefined` for absent properties of other values
(built-in members of primitives are outside the model). -/
def getField (v : Value) (name : String) : Except String Value :=
  match v with
  | .undef => .error ("TypeError: cannot read properties of undefined (reading " ++ name ++ ")")
  | .object entries => .ok ((entriesLookup entries name).getD .undef)
  | _ => .ok (.undef)

/-- Subscript access `v[i]`: throws on `undefined`, indexes arrays by
integer positions, looks the stringified key up on objects, and yields
`undefined` otherwise. -/
def getSubscript (v : Value) (index : Value) : Except String Value :=
  match v with
  | .undef => .error "TypeError: cannot read properties of undefined (subscript)"
  | .object entries => .ok ((entriesLookup entries (jsToString index)).getD .undef)
  | .array xs =>
    match index with
    | .number (.val q) =>
      if q.isInt && 0 ≤ q.trunc then
        .ok ((valueListGet xs q.trunc.toNat).getD .undef)
      else .ok .undef
    | _ => .ok (.undef)
  | _ => .ok (.undef)

/-- The value of a `LiteralNode` (it captures its `LiteralValue` at
parse time; the source stores `JSON.stringify(value)` and splices that
text into the compiled code, which denotes the same value). -/
def litToValue : LitValue → Value
  | .undef => .undef
  | .boolean b => .boolean b
  | .number q => .number (.val q)
  | .string s => .string s

/-- Concatenation of the string forms of interpolation fragment
values (modelled from the spec's interpolated-template semantics). -/
def concatStrings : ValueList → String
  | .nil => ""
  | .cons v t => jsToString v ++ concatStrings t

mutual

/-- Evaluation of a compiled node against a context — the tree-walking
form of `NodeInterface.compile` that the spec (§9) prescribes in place
of the source's string-splicing `new Function` code generation.  Each
case mirrors the code the corresponding node class emits:

* `LiteralNode` → the captured value;
* `VariableNode` → a bare identifier (resolved against the context;
  an unbound identifier is a thrown `ReferenceError`);
* `UnaryNode` → `op(inner)`;
* `BinaryNode` → `(left)op(right)`, with `&&`/`||`/`??`
  short-circuiting as the host runtime does;
* `BindNode` → `name(args...)`: the name is resolved, the arguments
  are evaluated left to right, and the call throws `TypeError`
  because no modelled value is callable;
* `PipeNode` → `(right)(left)`: callee first, then the argument, then
  the same `TypeError`;
* `ReferenceNode` — modelled from the spec (its class body is not
  under `src/`): the root name is resolved from the context
  (`undefined` when absent) and each path component is applied in
  order;
* `StaticFragmentNode`/`InterpolatedNode` — modelled from the spec:
  literal text, and the concatenation of the fragments' string forms;
* the iteration headers are not evaluated by this core. -/
def evalIn (ctx : Ctx) : Node → Except String Value
  | .literal v => .ok (litToValue v)
  | .variableRef name =>
    match ctxLookup ctx name with
    | some v => .ok v
    | none => .error ("ReferenceError: " ++ name ++ " is not defined")
  | .unary op inner =>
    match evalIn ctx inner with
    | .error e => .error e
    | .ok v =>
      if op = "!" then .ok (.boolean (!jsToBoolean v))
      else if op = "+" then .ok (.number (jsToNumber v))
      else if op = "-" then .ok (.number (negJs (jsToNumber v)))
      else .error ("unknown unary operator " ++ op)
  | .binary op left right =>
    if op = "&&" then
      match evalIn ctx left with
      | .error e => .error e
      | .ok lv => if jsToBoolean lv then evalIn ctx right else .ok lv
    else if op = "||" then
      match evalIn ctx left with
      | .error e => .error e
      | .ok lv => if jsToBoolean lv then .ok lv else evalIn ctx right
    else if op = "??" then
      match evalIn ctx left with
      | .error e => .error e
      | .ok .undef => evalIn ctx right
      | .ok lv => .ok lv
    else
      match evalIn ctx left with
      | .error e => .error e
      | .ok lv =>
        match evalIn ctx right with
        | .error e => .error e
        | .ok rv => jsBinary op lv rv
  | .bind name parameters =>
    match ctxLookup ctx name with
    | none => .error ("ReferenceError: " ++ name ++ " is not defined")
    | some _ =>
      match evalListIn ctx parameters with
      | .error e => .error e
      | .ok _ => .error ("TypeError: " ++ name ++ " is not a function")
  | .pipe left right =>
    match evalIn ctx right with
    | .error e => .error e
    | .ok _ =>
      match evalIn ctx left with
      | .error e => .error e
      | .ok _ => .error "TypeError: pipe target is not a function"
  | .reference components =>
    match components with
    | .consField root rest =>
      evalComponentsIn ctx rest ((ctxLookup ctx root).getD .undef)
    | _ => .error "internal error: reference without a root name"
  | .staticFragment text => .ok (.string text)
  | .interpolated fragments =>
    match evalListIn ctx fragments with
    | .error e => .error e
    | .ok vs => .ok (.string (concatStrings vs))
  | .collectionIteration _ _ =>
    .error "iteration headers are not evaluated by this core"
  | .dictionaryIteration _ _ _ =>
    .error "iteration headers are not evaluated by this core"

/-- Left-to-right evaluation of a node sequence. -/
def evalListIn (ctx : Ctx) : NodeList → Except String ValueList
  | .nil => .ok .nil
  | .cons n t =>
    match evalIn ctx n with
    | .error e => .error e
    | .ok v =>
      match evalListIn ctx t with
      | .error e => .error e
      | .ok vs => .ok (.cons v vs)

/-- Apply the path components of a reference in order; a subscript's
index expression is evaluated against the same context. -/
def evalComponentsIn (ctx : Ctx) : PathComponentList → Value → Except String Value
  | .nil, v => .ok v
  | .consField name rest, v =>
    match getField v name with
    | .error e => .error e
    | .ok v' => evalComponentsIn ctx rest v'
  | .consSubscript index rest, v =>
    match evalIn ctx index with
    | .error e => .error e
    | .ok iv =>
      match getSubscript v iv with
      | .error e => .error e
      | .ok v' => evalComponentsIn ctx rest v'

end

/-- Evaluation with the source's argument order (`evaluator(context)`
applied to a node): a thin wrapper over `evalIn`, whose context
parameter is fixed across the recursion. -/
def evalNode (n : Node) (ctx : Ctx) : Except String Value :=
  evalIn ctx n

/-- `compile(expression)` invoked on a context: the strict evaluator
(`new Function("return(<code>);")`): the node's value, or the
propagated evaluation failure. -/
def compile (expression : Node) (context : Ctx) : Except String Value :=
  evalNode expression context

/-- `compileSafe`: catches any failure, reports it once
(`console.error`) and falls through, returning `undefined`.  The
second component counts the reports made to the diagnostic sink during
the invocation. -/
def compileSafe (expression : Node) (context : Ctx) : Value × Nat :=
  match evalNode expression context with
  | .ok v => (v, 0)
  | .error _ => (.undef, 1)

/-- `compileSafeBoolean`: `!!(<code>)` on success, `false` after one
report on failure. -/
def compileSafeBoolean (expression : Node) (context : Ctx) : Bool × Nat :=
  match evalNode expression context with
  | .ok v => (jsToBoolean v, 0)
  | .error _ => (false, 1)

/-- `compileSafeInteger`: `~~(<code>)` on success, `0` after one
report on failure. -/
def compileSafeInteger (expression : Node) (context : Ctx) : Int × Nat :=
  match evalNode expression context with
  | .ok v => (jsToInt32 v, 0)
  | .error _ => (0, 1)

/-- `compileSafeNumber`: `+(<code>)` on success, `0` after one report
on failure. -/
def compileSafeNumber (expression : Node) (context : Ctx) : JsNum × Nat :=
  match evalNode expression context with
  | .ok v => (jsToNumber v, 0)
  | .error _ => (.val ⟨0, 1⟩, 1)

/-- `compileSafeString`: `String(<code>)` on success, `''` after one
report on failure. -/
def compileSafeString (expression : Node) (context : Ctx) : String × Nat :=
  match evalNode expression context with
  | .ok v => (jsToString v, 0)
  | .error _ => ("", 1)

/-- `compileSafeCollection`: `[].concat(<code>)` on success, `[]`
after one report on failure. -/
def compileSafeCollection (expression : Node) (context : Ctx) : ValueList × Nat :=
  match evalNode expression context with
  | .ok v => (jsToCollection v, 0)
  | .error _ => (.nil, 1)

/-- `compileSafeDictionary`: the expression's value — with no runtime
coercion, the `Dictionary` result type exists only in the cast — on
success, `{}` after one report on failure. -/
def compileSafeDictionary (expression : Node) (context : Ctx) : Value × Nat :=
  match evalNode expression context with
  | .ok v => (v, 0)
  | .error _ => (.object .nil, 1)

/-- The parser's static `_BINARY_OPERATOR_PRECEDENCE_TABLE`: six
levels, outermost first, each a (left-associative?, operator set)
pair.  As in the source, `**` is the outermost (loosest-binding) level
and the equality operators the innermost. -/
def binaryOperatorPrecedenceTable : List (Bool × List String) :=
  [(false, ["**"]),
   (true, ["*", "/", "%"]),
   (true, ["+", "-"]),
   (true, ["<<", ">>", ">>>"]),
   (true, ["<", "<=", ">", ">=", "in"]),
   (true, ["==", "!=", "===", "!=="])]

/-- `JSON.parse` of a string-literal label, for the labels the lexer
can produce (a quote, groups of one character plus an escaped quote,
a closing quote).  Double-quoted labels decode JSON string escapes;
single-quoted labels are not valid JSON, so `JSON.parse` throws (a
JSON `SyntaxError`, distinct from `MVC.SyntaxError`; both are modelled
as errors).  A label whose backslash pairing makes the JSON string end
early would also throw on the trailing text; that corner is
unexercised and decoded permissively here. -/
def decodeJsonEscapes : List Char → Except String (List Char)
  | [] => .ok []
  | '\\' :: c :: rest =>
    match
      (if c = '"' then some '"'
       else if c = '\\' then some '\\'
       else if c = '/' then some '/'
       else if c = 'n' then some '\n'
       else if c = 't' then some '\t'
       else if c = 'r' then some '\r'
       else if c = 'b' then some (Char.ofNat 8)
       else if c = 'f' then some (Char.ofNat 12)
       else none)
    with
    | some d => (decodeJsonEscapes rest).map (d :: ·)
    | none => .error "JSON.parse: bad escape"
  | '\\' :: [] => .error "JSON.parse: dangling escape"
  | c :: rest => (decodeJsonEscapes rest).map (c :: ·)

/-- `Parser._parseStringLiteral(label)` = `JSON.parse(label)`. -/
def parseStringLiteral (label : String) : Except String String :=
  match label.data with
  | '"' :: rest =>
    match rest.reverse with
    | '"' :: body => (decodeJsonEscapes body.reverse).map (⟨·⟩)
    | _ => .error "JSON.parse: unterminated string"
  | _ => .error "JSON.parse: not a JSON string"  -- single quotes are not JSON

/-- `components.concat(new FieldComponent(label))`. -/
def appendField : PathComponentList → String → PathComponentList
  | .nil, name => .consField name .nil
  | .consField n t, name => .consField n (appendField t name)
  | .consSubscript i t, name => .consSubscript i (appendField t name)

/-- `components.concat(new SubscriptComponent(index))`. -/
def appendSubscript : PathComponentList → Node → PathComponentList
  | .nil, index => .consSubscript index .nil
  | .consField n t, index => .consField n (appendSubscript t index)
  | .consSubscript i t, index => .consSubscript i (appendSubscript t index)

/-- `fragments.push(node)`. -/
def appendNode : NodeList → Node → NodeList
  | .nil, n => .cons n .nil
  | .cons h t, n => .cons h (appendNode t n)

mutual

/-- `Parser._parseReferenceComponents(components)`.  Note the `dot`
case is the source's: it calls `expect('name')` while the current
token is still the dot, so `expect` always throws there — the source
never skips the dot token. -/
def parseRefComponents : Nat → LexState → PathComponentList → Except String (Node × LexState)
  | 0, st, _ => .error st.orig
  | fuel + 1, st, components =>
    match st.token with
    | .tdot =>
      match lexExpect st [.tname] with
      | .error e => .error e
      | .ok (label, st') => parseRefComponents fuel st' (appendField components label)
    | .tleftSquare =>
      match lexNext st with
      | .error e => .error e
      | .ok st' =>
        match parseBinary fuel 0 st' with  -- this._parseRoot()
        | .error e => .error e
        | .ok (index, st'') =>
          match lexExpect st'' [.trightSquare] with
          | .error e => .error e
          | .ok (_, st''') =>
            parseRefComponents fuel st''' (appendSubscript components index)
    | _ => .ok (.reference components, st)

/-- `Parser._parseReference()`: a `name` root, then the component
loop. -/
def parseReference : Nat → LexState → Except String (Node × LexState)
  | 0, st => .error st.orig
  | fuel + 1, st =>
    match lexExpect st [.tname] with
    | .error e => .error e
    | .ok (label, st') => parseRefComponents fuel st' (.consField label .nil)

/-- `Parser._parseValue()`.  The `left` case is the source's: it does
not advance past the `(` before recursing into `_parseRoot`, so the
recursion re-enters `_parseValue` with the same `left` token and never
terminates (a stack overflow at runtime, fuel exhaustion here). -/
def parseValue : Nat → LexState → Except String (Node × LexState)
  | 0, st => .error st.orig
  | fuel + 1, st =>
    match st.token with
    | .tundefined =>
      match lexNext st with
      | .error e => .error e
      | .ok st' => .ok (.literal .undef, st')
    | .ttrue =>
      match lexNext st with
      | .error e => .error e
      | .ok st' => .ok (.literal (.boolean true), st')
    | .tfalse =>
      match lexNext st with
      | .error e => .error e
      | .ok st' => .ok (.literal (.boolean false), st')
    | .tnumber =>
      -- new LiteralNode(parseFloat(step())): a [0-9]+ label parses to
      -- its decimal value
      match lexStep st with
      | .error e => .error e
      | .ok (label, st') =>
        .ok (.literal (.number ⟨(digitsToNat label.data : Int), 1⟩), st')
    | .tstring =>
      match lexStep st with
      | .error e => .error e
      | .ok (label, st') =>
        match parseStringLiteral label with
        | .error e => .error e
        | .ok s => .ok (.literal (.string s), st')
    | .tleft =>
      match parseBinary fuel 0 st with  -- this._parseRoot(), '(' not consumed
      | .error e => .error e
      | .ok (node, st') =>
        match lexExpect st' [.tright] with
        | .error e => .error e
        | .ok (_, st'') => .ok (node, st'')
    | _ => parseReference fuel st

/-- `Parser._parseUnaryNode()`. -/
def parseUnary : Nat → LexState → Except String (Node × LexState)
  | 0, st => .error st.orig
  | fuel + 1, st =>
    if st.token = .toperator then
      if st.label = "+" || st.label = "-" || st.label = "!" then
        match lexNext st with
        | .error e => .error e
        | .ok st' =>
          match parseUnary fuel st' with
          | .error e => .error e
          | .ok (inner, st'') => .ok (.unary st.label inner, st'')
      else .error st.orig
    else parseValue fuel st

/-- `Parser._parseBinaryNode(precedenceIndex)`: precedence climbing
over `binaryOperatorPrecedenceTable`, left- or right-associative per
level, falling through to unary parsing past the last level. -/
def parseBinary : Nat → Nat → LexState → Except String (Node × LexState)
  | 0, _, st => .error st.orig
  | fuel + 1, index, st =>
    match binaryOperatorPrecedenceTable[index]? with
    | some (leftAssociative, operators) =>
      if leftAssociative then
        match parseBinary fuel (index + 1) st with
        | .error e => .error e
        | .ok (node, st') => parseBinaryLoop fuel index operators node st'
      else
        match parseBinary fuel (index + 1) st with
        | .error e => .error e
        | .ok (left, st') =>
          if (st'.token = .toperator || st'.token = .tin)
              && operators.contains st'.label then
            match lexStep st' with
            | .error e => .error e
            | .ok (operator, st'') =>
              match parseBinary fuel index st'' with
              | .error e => .error e
              | .ok (right, st''') => .ok (.binary operator left right, st''')
          else .ok (left, st')
    | none => parseUnary fuel st

/-- The `while` loop of the left-associative branch of
`_parseBinaryNode`: fold further operands of the same level into a
left-leaning tree. -/
def parseBinaryLoop : Nat → Nat → List String → Node → LexState → Except String (Node × LexState)
  | 0, _, _, _, st => .error st.orig
  | fuel + 1, index, operators, node, st =>
    if (st.token = .toperator || st.token = .tin)
        && operators.contains st.label then
      match lexStep st with
      | .error e => .error e
      | .ok (operator, st') =>
        match parseBinary fuel (index + 1) st' with
        | .error e => .error e
        | .ok (right, st'') =>
          parseBinaryLoop fuel index operators (.binary operator node right) st''
    else .ok (node, st)

end

/-- Fuel that is ample for any terminating parse of `input`: the
parser performs at most a bounded number of recursive calls per input
character (each character feeds at most one token, and descending all
six precedence levels plus the unary/value layers costs a constant
chain of calls per token). -/
def parserFuel (input : String) : Nat :=
  16 * input.length + 16

/-- `MVC.Expressions.parse(input)`: construct a `Parser` (which primes
the lexer with one `next()`), run `_parseRoot`, and require the `end`
token — trailing input is a syntax error carrying the original
input. -/
def parse (input : String) : Except String Node :=
  match lexNext (lexInit input) with
  | .error e => .error e
  | .ok st =>
    match parseBinary (parserFuel input) 0 st with
    | .error e => .error e
    | .ok (node, st') =>
      if st'.token = .tend then .ok node else .error input

/-- `Parser.parseIteration()`: a leading `name`, then either
`, name in <expr>` (dictionary iteration) or `in <expr>` (collection
iteration); the source expression is parsed by `this.parse()`, end
check included. -/
def parseIteration (input : String) : Except String Node :=
  match lexNext (lexInit input) with
  | .error e => .error e
  | .ok st =>
    match lexExpect st [.tname] with
    | .error e => .error e
    | .ok (name, st') =>
      match st'.token with
      | .tcomma =>
        match lexNext st' with
        | .error e => .error e
        | .ok st'' =>
          match lexExpect st'' [.tname] with
          | .error e => .error e
          | .ok (valueName, st3) =>
            match lexExpect st3 [.tin] with
            | .error e => .error e
            | .ok (_, st4) =>
              match parseBinary (parserFuel input) 0 st4 with
              | .error e => .error e
              | .ok (source, st5) =>
                if st5.token = .tend then
                  .ok (.dictionaryIteration name valueName source)
                else .error input
      | .tin =>
        match lexNext st' with
        | .error e => .error e
        | .ok st'' =>
          match parseBinary (parserFuel input) 0 st'' with
          | .error e => .error e
          | .ok (source, st3) =>
            if st3.token = .tend then .ok (.collectionIteration name source)
            else .error input
      | _ => .error input

/-- The inner scanning loop of `interpolate`: after an opening `{{`,
accumulate characters until a `}` immediately followed by `}`; a lone
`}` is appended literally together with the character after it; a `}`
as the very last character appends `'}' + undefined` and then falls
off the loop; end of input inside the region throws a syntax error
with the whole interpolation input.  On success the accumulated text
is parsed as a full expression by a fresh `Parser`. -/
def interpInner : Nat → String → List Char → String → Except String (Node × List Char)
  | 0, orig, _, _ => .error orig
  | _ + 1, orig, [], _ => .error orig
  | fuel + 1, orig, c :: rest', text =>
    if c = '}' then
      match rest' with
      | [] => .error orig
      | d :: rest'' =>
        if d = '}' then
          match parse text with
          | .error e => .error e
          | .ok n => .ok (n, rest'')
        else interpInner fuel orig rest'' ((text.push '}').push d)
    else interpInner fuel orig rest' (text.push c)

/-- The outer scanning loop of `interpolate`: literal text
accumulates until a `{` immediately followed by `{`; a lone `{` is
literal and is appended together with the following character; a `{`
as the very last character appends `'{' + undefined` — the
out-of-range read stringifies to the nine characters `undefined` —
and the loop ends.  An expression region contributes the pending text
as a `StaticFragment` followed by the parsed expression node. -/
def interpOuter : Nat → String → List Char → String → NodeList → Except String NodeList
  | 0, orig, _, _, _ => .error orig
  | _ + 1, _, [], text, fragments =>
    .ok (appendNode fragments (.staticFragment text))
  | fuel + 1, orig, c :: rest', text, fragments =>
    if c = '{' then
      match rest' with
      | [] => .ok (appendNode fragments (.staticFragment ((text.push '{') ++ "undefined")))
      | d :: rest'' =>
        if d = '{' then
          match interpInner fuel orig rest'' "" with
          | .error e => .error e
          | .ok (n, restAfter) =>
            interpOuter fuel orig restAfter ""
              (appendNode (appendNode fragments (.staticFragment text)) n)
        else interpOuter fuel orig rest'' ((text.push '{').push d) fragments
    else interpOuter fuel orig rest' (text.push c) fragments

/-- `MVC.Expressions.interpolate(input)`: scan the raw text and build
the `InterpolatedNode` over the collected fragments. -/
def interpolate (input : String) : Except String Node :=
  match interpOuter (input.length + 1) input input.data "" .nil with
  | .error e => .error e
  | .ok fragments => .ok (.interpolated fragments)

/-! ### No parser production constructs `Pipe` or `Bind` nodes -/

mutual

/-- Does the tree avoid `Pipe` and `Bind` nodes everywhere? -/
def noPB : Node → Bool
  | .literal _ => true
  | .variableRef _ => true
  | .unary _ inner => noPB inner
  | .binary _ left right => noPB left && noPB right
  | .bind _ _ => false
  | .pipe _ _ => false
  | .reference components => noPBComponents components
  | .staticFragment _ => true
  | .interpolated fragments => noPBList fragments
  | .collectionIteration _ source => noPB source
  | .dictionaryIteration _ _ source => noPB source

/-- `noPB` over a node sequence. -/
def noPBList : NodeList → Bool
  | .nil => true
  | .cons n t => noPB n && noPBList t

/-- `noPB` over the index expressions of a component chain. -/
def noPBComponents : PathComponentList → Bool
  | .nil => true
  | .consField _ t => noPBComponents t
  | .consSubscript index t => noPB index && noPBComponents t

end

/-! ### Properties of `unique` (first-occurrence de-duplication) -/

theorem uniqueAux_sublist (seen l : List String) : (uniqueAux seen l).Sublist l := by
  induction l generalizing seen with
  | nil => simp [uniqueAux]
  | cons x xs ih =>
    simp only [uniqueAux]
    split
    · exact (ih seen).cons x
    · exact (ih (x :: seen)).cons₂ x

theorem mem_uniqueAux (seen l : List String) (x : String) :
    x ∈ uniqueAux seen l ↔ x ∈ l ∧ x ∉ seen := by
  induction l generalizing seen with
  | nil => simp [uniqueAux]
  | cons y ys ih =>
    simp only [uniqueAux]
    split
    · rename_i hy
      rw [ih]
      simp only [List.mem_cons]
      constructor
      · exact fun h => ⟨Or.inr h.1, h.2⟩
      · rintro ⟨hx | hx, hns⟩
        · exact absurd (hx ▸ hy) hns
        · exact ⟨hx, hns⟩
    · rename_i hy
      simp only [List.mem_cons, ih]
      constructor
      · rintro (rfl | ⟨hx, hns⟩)
        · exact ⟨Or.inl rfl, hy⟩
        · exact ⟨Or.inr hx, fun h => hns (Or.inr h)⟩
      · rintro ⟨rfl | hx, hns⟩
        · exact Or.inl rfl
        · by_cases hxy : x = y
          · exact Or.inl hxy
          · exact Or.inr ⟨hx, fun h => h.elim hxy hns⟩

theorem uniqueAux_nodup (seen l : List String) : (uniqueAux seen l).Nodup := by
  induction l generalizing seen with
  | nil => simp [uniqueAux]
  | cons y ys ih =>
    simp only [uniqueAux]
    split
    · exact ih seen
    · refine List.nodup_cons.mpr ⟨fun h => ?_, ih (y :: seen)⟩
      exact ((mem_uniqueAux _ _ _).mp h).2 (List.mem_cons_self y seen)

theorem uniqueAux_eq_of_nodup (seen l : List String) (h : l.Nodup)
    (hd : ∀ a ∈ l, a ∉ seen) : uniqueAux seen l = l := by
  induction l generalizing seen with
  | nil => simp [uniqueAux]
  | cons y ys ih =>
    have hy : y ∉ seen := hd y (List.mem_cons_self y ys)
    simp only [uniqueAux, if_neg hy]
    rcases List.nodup_cons.mp h with ⟨hyys, hys⟩
    refine congrArg (y :: ·) (ih (y :: seen) hys fun a ha => ?_)
    intro hmem
    rcases List.mem_cons.mp hmem with rfl | hmem
    · exact hyys ha
    · exact hd a (List.mem_cons_of_mem _ ha) hmem

theorem unique_sublist (l : List String) : (unique l).Sublist l :=
  uniqueAux_sublist [] l

theorem unique_nodup (l : List String) : (unique l).Nodup :=
  uniqueAux_nodup [] l

theorem unique_eq_of_nodup {l : List String} (h : l.Nodup) : unique l = l :=
  uniqueAux_eq_of_nodup [] l h (by simp)

theorem mem_unique (l : List String) (x : String) : x ∈ unique l ↔ x ∈ l := by
  rw [unique, mem_uniqueAux]; simp

/-- Every node's free list is duplicate-free. -/
theorem free_nodup : ∀ n : Node, (free n).Nodup
  | .literal _ => List.nodup_nil
  | .variableRef name => List.nodup_singleton name
  | .unary _ inner => free_nodup inner
  | .binary _ _ _ => unique_nodup _
  | .bind _ _ => unique_nodup _
  | .pipe _ _ => unique_nodup _
  | .reference _ => unique_nodup _
  | .staticFragment _ => List.nodup_nil
  | .interpolated _ => unique_nodup _
  | .collectionIteration _ source => free_nodup source
  | .dictionaryIteration _ _ source => free_nodup source

/-- C6: for every AST node, `free()` is the de-duplicated union of the
node's children's free lists (together with the node's own contributed
name: the bound name for `Bind`, the root name for `Reference`, the
variable name for `Variable`), keeping the first occurrence of each
name in order (the result is a duplicate-free sublist of the raw
concatenation `rawFree`, as `[...new Set(...)]` produces), and
`free()` is idempotent: de-duplicating an already returned list
changes nothing, so two calls on the same node return equal lists. -/
theorem claim_C6_free_dedup_idempotent :
    ∀ n : Node, free n = unique (rawFree n) ∧ (free n).Nodup ∧
      (free n).Sublist (rawFree n) ∧ unique (free n) = free n := by
  intro n
  have hnd := free_nodup n
  have idem : unique (free n) = free n := unique_eq_of_nodup hnd
  cases n with
  | literal v => exact ⟨rfl, hnd, List.Sublist.refl _, idem⟩
  | variableRef name => exact ⟨rfl, hnd, List.Sublist.refl _, idem⟩
  | unary op inner =>
    exact ⟨(unique_eq_of_nodup (free_nodup inner)).symm, hnd,
      List.Sublist.refl _, idem⟩
  | binary op l r => exact ⟨rfl, hnd, unique_sublist _, idem⟩
  | bind name ps => exact ⟨rfl, hnd, unique_sublist _, idem⟩
  | pipe l r => exact ⟨rfl, hnd, unique_sublist _, idem⟩
  | reference comps => exact ⟨rfl, hnd, unique_sublist _, idem⟩
  | staticFragment text => exact ⟨rfl, hnd, List.Sublist.refl _, idem⟩
  | interpolated fs => exact ⟨rfl, hnd, unique_sublist _, idem⟩
  | collectionIteration name source =>
    exact ⟨(unique_eq_of_nodup (free_nodup source)).symm, hnd,
      List.Sublist.refl _, idem⟩
  | dictionaryIteration k v source =>
    exact ⟨(unique_eq_of_nodup (free_nodup source)).symm, hnd,
      List.Sublist.refl _, idem⟩

theorem noPBComponents_appendField :
    ∀ (comps : PathComponentList) (name : String),
      noPBComponents (appendField comps name) = noPBComponents comps
  | .nil, _ => rfl
  | .consField n t, name => by
    simp [appendField, noPBComponents, noPBComponents_appendField t name]
  | .consSubscript i t, name => by
    simp [appendField, noPBComponents, noPBComponents_appendField t name]

theorem noPBComponents_appendSubscript :
    ∀ (comps : PathComponentList) (index : Node),
      noPBComponents (appendSubscript comps index)
        = (noPBComponents comps && noPB index)
  | .nil, index => by simp [appendSubscript, noPBComponents]
  | .consField n t, index => by
    simp [appendSubscript, noPBComponents, noPBComponents_appendSubscript t index]
  | .consSubscript i t, index => by
    simp [appendSubscript, noPBComponents, noPBComponents_appendSubscript t index,
      Bool.and_assoc]

theorem noPBList_appendNode :
    ∀ (fs : NodeList) (n : Node),
      noPBList (appendNode fs n) = (noPBList fs && noPB n)
  | .nil, n => by simp [appendNode, noPBList]
  | .cons h t, n => by
    simp [appendNode, noPBList, noPBList_appendNode t n, Bool.and_assoc]

theorem parser_noPB : ∀ fuel : Nat,
    (∀ st comps n st', noPBComponents comps = true →
      parseRefComponents fuel st comps = .ok (n, st') → noPB n = true) ∧
    (∀ st n st', parseReference fuel st = .ok (n, st') → noPB n = true) ∧
    (∀ st n st', parseValue fuel st = .ok (n, st') → noPB n = true) ∧
    (∀ st n st', parseUnary fuel st = .ok (n, st') → noPB n = true) ∧
    (∀ index st n st', parseBinary fuel index st = .ok (n, st') → noPB n = true) ∧
    (∀ index ops node st n st', noPB node = true →
      parseBinaryLoop fuel index ops node st = .ok (n, st') → noPB n = true) := by
  intro fuel
  induction fuel with
  | zero =>
    refine ⟨?_, ?_, ?_, ?_, ?_, ?_⟩ <;> intros <;>
      simp_all [parseRefComponents, parseReference, parseValue, parseUnary,
        parseBinary, parseBinaryLoop]
  | succ fuel ih =>
    obtain ⟨ihRC, ihR, ihV, ihU, ihB, ihL⟩ := ih
    refine ⟨?_, ?_, ?_, ?_, ?_, ?_⟩
    · -- parseRefComponents
      intro st comps n st' hcomps h
      rw [parseRefComponents] at h
      split at h
      · -- tdot
        split at h
        · simp at h
        · rename_i label st₁ heq
          exact ihRC _ _ _ _ (by rw [noPBComponents_appendField]; exact hcomps) h
      · -- tleftSquare
        split at h
        · simp at h
        · rename_i st₁ heq
          split at h
          · simp at h
          · rename_i index st₂ heq₂
            split at h
            · simp at h
            · rename_i lbl st₃ heq₃
              refine ihRC _ _ _ _ ?_ h
              rw [noPBComponents_appendSubscript, hcomps, ihB _ _ _ _ heq₂]
              rfl
      · -- default
        rw [Except.ok.injEq, Prod.mk.injEq] at h
        obtain ⟨rfl, -⟩ := h
        exact hcomps
    · -- parseReference
      intro st n st' h
      rw [parseReference] at h
      split at h
      · simp at h
      · rename_i label st₁ heq
        exact ihRC _ _ _ _ (by simp [noPBComponents]) h
    · -- parseValue
      intro st n st' h
      rw [parseValue] at h
      split at h
      · split at h
        · simp at h
        · rw [Except.ok.injEq, Prod.mk.injEq] at h
          obtain ⟨rfl, -⟩ := h
          rfl
      · split at h
        · simp at h
        · rw [Except.ok.injEq, Prod.mk.injEq] at h
          obtain ⟨rfl, -⟩ := h
          rfl
      · split at h
        · simp at h
        · rw [Except.ok.injEq, Prod.mk.injEq] at h
          obtain ⟨rfl, -⟩ := h
          rfl
      · split at h
        · simp at h
        · rw [Except.ok.injEq, Prod.mk.injEq] at h
          obtain ⟨rfl, -⟩ := h
          rfl
      · split at h
        · simp at h
        · split at h
          · simp at h
          · rw [Except.ok.injEq, Prod.mk.injEq] at h
            obtain ⟨rfl, -⟩ := h
            rfl
      · split at h
        · simp at h
        · rename_i node st₁ heq
          split at h
          · simp at h
          · rename_i lbl st₂ heq₂
            rw [Except.ok.injEq, Prod.mk.injEq] at h
            obtain ⟨rfl, -⟩ := h
            exact ihB _ _ _ _ heq
      · exact ihR _ _ _ h
    · -- parseUnary
      intro st n st' h
      rw [parseUnary] at h
      split at h
      · split at h
        · split at h
          · simp at h
          · rename_i st₁ heq
            split at h
            · simp at h
            · rename_i inner st₂ heq₂
              rw [Except.ok.injEq, Prod.mk.injEq] at h
              obtain ⟨rfl, -⟩ := h
              simpa [noPB] using ihU _ _ _ heq₂
        · simp at h
      · exact ihV _ _ _ h
    · -- parseBinary
      intro index st n st' h
      rw [parseBinary] at h
      split at h
      · rename_i p leftAssociative operators heq0
        split at h
        · split at h
          · simp at h
          · rename_i node st₁ heq
            exact ihL _ _ _ _ _ _ (ihB _ _ _ _ heq) h
        · split at h
          · simp at h
          · rename_i left st₁ heq
            split at h
            · split at h
              · simp at h
              · rename_i operator st₂ heq₂
                split at h
                · simp at h
                · rename_i right st₃ heq₃
                  rw [Except.ok.injEq, Prod.mk.injEq] at h
                  obtain ⟨rfl, -⟩ := h
                  simp [noPB, ihB _ _ _ _ heq, ihB _ _ _ _ heq₃]
            · rw [Except.ok.injEq, Prod.mk.injEq] at h
              obtain ⟨rfl, -⟩ := h
              exact ihB _ _ _ _ heq
      · exact ihU _ _ _ h
    · -- parseBinaryLoop
      intro index ops node st n st' hnode h
      rw [parseBinaryLoop] at h
      split at h
      · split at h
        · simp at h
        · rename_i operator st₁ heq
          split at h
          · simp at h
          · rename_i right st₂ heq₂
            refine ihL _ _ _ _ _ _ ?_ h
            simp [noPB, hnode, ihB _ _ _ _ heq₂]
      · rw [Except.ok.injEq, Prod.mk.injEq] at h
        obtain ⟨rfl, -⟩ := h
        exact hnode

/-- Any AST `parse` returns avoids `Pipe` and `Bind`. -/
theorem parse_noPB (input : String) (n : Node) (h : parse input = .ok n) :
    noPB n = true := by
  rw [parse] at h
  split at h
  · simp at h
  · rename_i st heq
    split at h
    · simp at h
    · rename_i node st' heq₂
      split at h
      · rw [Except.ok.injEq] at h
        obtain rfl := h
        exact (parser_noPB _).2.2.2.2.1 _ _ _ _ heq₂
      · simp at h

/-- Any expression node the interpolation scanner parses avoids `Pipe`
and `Bind`. -/
theorem interpInner_noPB : ∀ fuel orig rest text n rest',
    interpInner fuel orig rest text = .ok (n, rest') → noPB n = true := by
  intro fuel
  induction fuel with
  | zero => intros; simp_all [interpInner]
  | succ fuel ih =>
    intro orig rest text n rest' h
    cases rest with
    | nil => simp [interpInner] at h
    | cons c rest₁ =>
      unfold interpInner at h
      split at h
      · split at h
        · simp at h
        · rename_i d rest₂
          split at h
          · split at h
            · simp at h
            · rename_i m heq
              rw [Except.ok.injEq, Prod.mk.injEq] at h
              obtain ⟨rfl, -⟩ := h
              exact parse_noPB _ _ heq
          · exact ih _ _ _ _ _ h
      · exact ih _ _ _ _ _ h

/-- The outer interpolation scan preserves freedom from `Pipe` and
`Bind` over the accumulated fragments. -/
theorem interpOuter_noPB : ∀ fuel orig rest text frags out,
    noPBList frags = true → interpOuter fuel orig rest text frags = .ok out →
      noPBList out = true := by
  intro fuel
  induction fuel with
  | zero => intros; simp_all [interpOuter]
  | succ fuel ih =>
    intro orig rest text frags out hfrags h
    cases rest with
    | nil =>
      unfold interpOuter at h
      rw [Except.ok.injEq] at h
      obtain rfl := h
      rw [noPBList_appendNode, hfrags]
      rfl
    | cons c rest₁ =>
      unfold interpOuter at h
      split at h
      · split at h
        · rw [Except.ok.injEq] at h
          obtain rfl := h
          rw [noPBList_appendNode, hfrags]
          rfl
        · rename_i d rest₂
          split at h
          · split at h
            · simp at h
            · rename_i m restAfter heq
              refine ih _ _ _ _ _ ?_ h
              rw [noPBList_appendNode, noPBList_appendNode, hfrags,
                interpInner_noPB _ _ _ _ _ _ heq]
              rfl
          · exact ih _ _ _ _ _ hfrags h
      · exact ih _ _ _ _ _ hfrags h

/-- Any AST `interpolate` returns avoids `Pipe` and `Bind`. -/
theorem interpolate_noPB (input : String) (n : Node)
    (h : interpolate input = .ok n) : noPB n = true := by
  rw [interpolate] at h
  split at h
  · simp at h
  · rename_i frags heq
    rw [Except.ok.injEq] at h
    obtain rfl := h
    exact interpOuter_noPB _ _ _ _ _ _ (by simp [noPBList]) heq

/-- Any AST `parseIteration` returns avoids `Pipe` and `Bind`. -/
theorem parseIteration_noPB (input : String) (n : Node)
    (h : parseIteration input = .ok n) : noPB n = true := by
  rw [parseIteration] at h
  split at h
  · simp at h
  · rename_i st heq
    split at h
    · simp at h
    · rename_i name st₁ heq₁
      split at h
      · split at h
        · simp at h
        · rename_i st₂ heq₂
          split at h
          · simp at h
          · rename_i valueName st₃ heq₃
            split at h
            · simp at h
            · rename_i lbl st₄ heq₄
              split at h
              · simp at h
              · rename_i source st₅ heq₅
                split at h
                · rw [Except.ok.injEq] at h
                  obtain rfl := h
                  simpa [noPB] using (parser_noPB _).2.2.2.2.1 _ _ _ _ heq₅
                · simp at h
      · split at h
        · simp at h
        · rename_i st₂ heq₂
          split at h
          · simp at h
          · rename_i source st₃ heq₃
            split at h
            · rw [Except.ok.injEq] at h
              obtain rfl := h
              simpa [noPB] using (parser_noPB _).2.2.2.2.1 _ _ _ _ heq₃
            · simp at h
      · simp at h


/-- C8: no parser production constructs a `Pipe` or a `Bind` node:
every AST returned by `parse`, `interpolate`, or `parseIteration` is
free of both node kinds (although the lexer recognises a pipe token
and the classes exist), and an input with a lone pipe token, such as
`a | b`, fails with a syntax error instead of producing a `Pipe`
node (the parser never consumes a pipe token, so it can never reach
the required `end` token past one). -/
theorem claim_C8_no_pipe_or_bind :
    (∀ input n, parse input = .ok n → noPB n = true) ∧
    (∀ input n, interpolate input = .ok n → noPB n = true) ∧
    (∀ input n, parseIteration input = .ok n → noPB n = true) ∧
    parse "a | b" = .error "a | b" :=
  ⟨parse_noPB, interpolate_noPB, parseIteration_noPB, rfl⟩

/-- Witness for C8: the parse of `"a"` succeeds and its AST (a bare
reference) contains no `Pipe` or `Bind` node. -/
theorem claim_C8_witness :
    noPB (Node.reference (.consField "a" .nil)) = true :=
  claim_C8_no_pipe_or_bind.1 "a" _ rfl

/-- `ToInt32` lands in the signed 32-bit range. -/
theorem int32Wrap_range (t : Int) :
    -2147483648 ≤ int32Wrap t ∧ int32Wrap t < 2147483648 := by
  unfold int32Wrap
  have h₁ : 0 ≤ t.emod 4294967296 := Int.emod_nonneg t (by norm_num)
  have h₂ : t.emod 4294967296 < 4294967296 := Int.emod_lt_of_pos t (by norm_num)
  split <;> omega

/-- C5 (amended): every typed safe evaluator is total; a failing
evaluation reports to the diagnostic sink exactly once and returns the
variant's default (`false`, `0`, `0`, `""`, `[]`, `{}`), while a
successful evaluation reports nothing and returns the result under the
variant's coercion — strict boolean for boolean-safe, `ToInt32`
(truncation toward zero with wrap-around modulo `2^32`, hence always in
the signed 32-bit range) for integer-safe, numeric coercion for
number-safe, string form for string-safe, array flattening (a
non-array becomes a one-element sequence) for collection-safe — except
that dictionary-safe returns the successful result unchanged, its
`Dictionary` type existing only in the cast. -/
theorem claim_C5_safe_evaluators (n : Node) (ctx : Ctx) :
    (∀ e, evalNode n ctx = .error e →
      compileSafeBoolean n ctx = (false, 1) ∧
      compileSafeInteger n ctx = (0, 1) ∧
      compileSafeNumber n ctx = (.val ⟨0, 1⟩, 1) ∧
      compileSafeString n ctx = ("", 1) ∧
      compileSafeCollection n ctx = (.nil, 1) ∧
      compileSafeDictionary n ctx = (.object .nil, 1)) ∧
    (∀ v, evalNode n ctx = .ok v →
      compileSafeBoolean n ctx = (jsToBoolean v, 0) ∧
      compileSafeInteger n ctx = (jsToInt32 v, 0) ∧
      compileSafeNumber n ctx = (jsToNumber v, 0) ∧
      compileSafeString n ctx = (jsToString v, 0) ∧
      compileSafeCollection n ctx = (jsToCollection v, 0) ∧
      compileSafeDictionary n ctx = (v, 0)) ∧
    (-2147483648 ≤ (compileSafeInteger n ctx).1 ∧
      (compileSafeInteger n ctx).1 < 2147483648) ∧
    (∀ v, (∀ xs, v ≠ Value.array xs) → jsToCollection v = .cons v .nil) := by
  refine ⟨?_, ?_, ?_, ?_⟩
  · intro e h
    simp [compileSafeBoolean, compileSafeInteger, compileSafeNumber,
      compileSafeString, compileSafeCollection, compileSafeDictionary, h]
  · intro v h
    simp [compileSafeBoolean, compileSafeInteger, compileSafeNumber,
      compileSafeString, compileSafeCollection, compileSafeDictionary, h]
  · rw [compileSafeInteger]
    split
    · rename_i v heq
      rw [jsToInt32]
      split
      · norm_num
      · exact int32Wrap_range _
    · norm_num
  · intro v hvarr
    cases v with
    | array xs => exact absurd rfl (hvarr xs)
    | undef => rfl
    | boolean b => rfl
    | number m => rfl
    | string s => rfl
    | object entries => rfl

/-- C5 counterexample: the claim as stated is false for
dictionary-safe — on the expression `5` (which evaluates successfully
to a number) the dictionary-safe evaluator returns the number `5`
itself, not a value of its declared mapping type. -/
theorem claim_C5_counterexample :
    compileSafeDictionary (.literal (.number 5)) [] = (.number (.val 5), 0) ∧
    isObject (compileSafeDictionary (.literal (.number 5)) []).1 = false :=
  ⟨rfl, rfl⟩

/-- Witness for C5: a failing evaluation (reading `b` from the
undefined root `a` in an empty context) yields `false` with one report
under boolean-safe, and a successful evaluation yields the coerced
string with no report under string-safe. -/
theorem claim_C5_witness :
    compileSafeBoolean (.reference (.consField "a" (.consField "b" .nil))) [] = (false, 1) ∧
    compileSafeString (.literal (.string "hi")) [] = ("hi", 0) :=
  ⟨((claim_C5_safe_evaluators
      (.reference (.consField "a" (.consField "b" .nil))) []).1 _ rfl).1,
   ((claim_C5_safe_evaluators (.literal (.string "hi")) []).2.1 _ rfl).2.2.2.1⟩

/-- C1: evaluating the code at the claim's inputs.  The precedence
table places `**` at the outermost (loosest) level and the equality
operators innermost — inverted relative to the conventional table the
spec asserts — so `1 + 2 * 3` parses as `(1 + 2) * 3` and evaluates to
`9` with any context, not `7`; the right-associative `2 ** 3 ** 2`
(512) and left-associative `10 - 3 - 2` (5) do come out as the claim
states. -/
theorem claim_C1_precedence_results :
    parse "1 + 2 * 3" = .ok (.binary "*"
      (.binary "+" (.literal (.number 1)) (.literal (.number 2)))
      (.literal (.number 3))) ∧
    (∀ ctx : Ctx, (parse "1 + 2 * 3").bind (fun n => evalNode n ctx) =
      .ok (.number (.val 9))) ∧
    (∀ ctx : Ctx, (parse "2 ** 3 ** 2").bind (fun n => evalNode n ctx) =
      .ok (.number (.val 512))) ∧
    (∀ ctx : Ctx, (parse "10 - 3 - 2").bind (fun n => evalNode n ctx) =
      .ok (.number (.val 5))) :=
  ⟨rfl, fun _ => rfl, fun _ => rfl, fun _ => rfl⟩

/-- C2: evaluating the code at the failing input.  The string rule
`/^"([^"](\\"))*"/` (missing the `|` that would make the group an
alternation) only matches string literals made of (character,
backslash, quote) triples, so the five-character input `"abc"` matches
no lexical rule and tokenizing — hence parsing — fails with a syntax
error carrying the input; the other literal kinds round-trip to their
decoded values as the claim states. -/
theorem claim_C2_literal_roundtrip :
    tokenize "\"abc\"" = .error "\"abc\"" ∧
    parse "\"abc\"" = .error "\"abc\"" ∧
    (∀ ctx : Ctx, (parse "undefined").bind (fun n => evalNode n ctx) = .ok .undef) ∧
    (∀ ctx : Ctx, (parse "true").bind (fun n => evalNode n ctx) = .ok (.boolean true)) ∧
    (∀ ctx : Ctx, (parse "false").bind (fun n => evalNode n ctx) = .ok (.boolean false)) ∧
    (∀ ctx : Ctx, (parse "42").bind (fun n => evalNode n ctx) = .ok (.number (.val 42))) :=
  ⟨rfl, rfl, fun _ => rfl, fun _ => rfl, fun _ => rfl, fun _ => rfl⟩

/-- C3 counterexample: `trueFlag` is not tokenized as a single name;
the boundary-less keyword rule `/^true/` matches first and the input
splits into the keyword `true` followed by the name `Flag`. -/
theorem claim_C3_counterexample :
    tokenize "trueFlag" = .ok [(.ttrue, "true"), (.tname, "Flag")] ∧
    ([(Token.ttrue, "true"), (Token.tname, "Flag")] : List (Token × String)) ≠
      [(Token.tname, "trueFlag")] :=
  ⟨rfl, by decide⟩

/-- C3 (amended): the lexical rules are not mutually exclusive — on
any input starting with `true` both the keyword rule and (when word
characters follow) the identifier rule match a prefix — and the first
rule in priority order wins: every input beginning `true` yields the
keyword token, so `trueFlag` splits into `true` + `Flag`.  Only the
`in` rule carries a word-boundary guard, so `inx` is a single name.
Keyword source text itself always lexes as the keyword token, never as
a name. -/
theorem claim_C3_first_match_wins :
    (∀ tail : List Char,
      lexRules ('t' :: 'r' :: 'u' :: 'e' :: tail) = some (.ttrue, "true".data, tail)) ∧
    tokenize "trueFlag" = .ok [(.ttrue, "true"), (.tname, "Flag")] ∧
    tokenize "inx" = .ok [(.tname, "inx")] ∧
    tokenize "true" = .ok [(.ttrue, "true")] ∧
    tokenize "undefined" = .ok [(.tundefined, "undefined")] ∧
    tokenize "false" = .ok [(.tfalse, "false")] ∧
    tokenize "in" = .ok [(.tin, "in")] :=
  ⟨fun tail => by cases tail <;> rfl, rfl, rfl, rfl, rfl, rfl, rfl⟩

/-- C4 counterexample: `a && b` does not parse into a Binary node —
it fails with a syntax error (`&&` is lexed but belongs to no
precedence level, so the parser stops after `a` and the trailing-input
check throws). -/
theorem claim_C4_counterexample :
    parse "a && b" = .error "a && b" :=
  rfl

/-- C4 (amended): the lexer recognises `&&`, `||` and `??` as operator
tokens and a manually built Binary node with those operators
short-circuits on evaluation, returning an operand's value per
truthiness/nullishness; but no level of the precedence table contains
them, so `a && b`, `a || b` and `a ?? b` all fail to parse with a
syntax error carrying the input. -/
theorem claim_C4_logical_operators :
    tokenize "&&" = .ok [(.toperator, "&&")] ∧
    tokenize "||" = .ok [(.toperator, "||")] ∧
    tokenize "??" = .ok [(.toperator, "??")] ∧
    (∀ level ∈ binaryOperatorPrecedenceTable,
      "&&" ∉ level.2 ∧ "||" ∉ level.2 ∧ "??" ∉ level.2) ∧
    parse "a && b" = .error "a && b" ∧
    parse "a || b" = .error "a || b" ∧
    parse "a ?? b" = .error "a ?? b" ∧
    (∀ a b ctx lv, evalNode a ctx = .ok lv → jsToBoolean lv = false →
      evalNode (.binary "&&" a b) ctx = .ok lv) ∧
    (∀ a b ctx lv, evalNode a ctx = .ok lv → jsToBoolean lv = true →
      evalNode (.binary "||" a b) ctx = .ok lv) ∧
    (∀ a b ctx lv, evalNode a ctx = .ok lv → lv ≠ .undef →
      evalNode (.binary "??" a b) ctx = .ok lv) := by
  refine ⟨rfl, rfl, rfl, by decide, rfl, rfl, rfl, ?_, ?_, ?_⟩
  · intro a b ctx lv h hb
    have key : evalNode (.binary "&&" a b) ctx =
        (match evalIn ctx a with
         | .error e => .error e
         | .ok v => if jsToBoolean v then evalIn ctx b else .ok v) := rfl
    rw [key, show evalIn ctx a = .ok lv from h]
    simp [hb]
  · intro a b ctx lv h hb
    have key : evalNode (.binary "||" a b) ctx =
        (match evalIn ctx a with
         | .error e => .error e
         | .ok v => if jsToBoolean v then .ok v else evalIn ctx b) := rfl
    rw [key, show evalIn ctx a = .ok lv from h]
    simp [hb]
  · intro a b ctx lv h hlv
    have key : evalNode (.binary "??" a b) ctx =
        (match evalIn ctx a with
         | .error e => .error e
         | .ok .undef => evalIn ctx b
         | .ok v => .ok v) := rfl
    rw [key, show evalIn ctx a = .ok lv from h]
    cases lv with
    | undef => exact absurd rfl hlv
    | boolean b => rfl
    | number m => rfl
    | string s => rfl
    | array xs => rfl
    | object entries => rfl

/-- Witness for C4: short-circuiting observed at concrete inputs —
`false && undefined` yields the left operand `false` and
`"x" ?? undefined` yields the left operand `"x"`. -/
theorem claim_C4_witness :
    evalNode (.binary "&&" (.literal (.boolean false)) (.literal .undef)) [] =
      .ok (.boolean false) ∧
    evalNode (.binary "??" (.literal (.string "x")) (.literal .undef)) [] =
      .ok (.string "x") :=
  ⟨claim_C4_logical_operators.2.2.2.2.2.2.2.1 _ _ [] _ rfl rfl,
   claim_C4_logical_operators.2.2.2.2.2.2.2.2.2 _ _ [] _ rfl (by simp)⟩

/-- C7: each malformed input fails with a syntax error whose payload
is the original, unmodified input text, and no partial AST is
returned: `1 +` (incomplete expression), `1 2` (trailing input after a
complete expression), `a {{ b` (end of input inside an open
interpolation region). -/
theorem claim_C7_syntax_errors :
    parse "1 +" = .error "1 +" ∧
    parse "1 2" = .error "1 2" ∧
    interpolate "a \x7b\x7b b" = .error "a \x7b\x7b b" :=
  ⟨rfl, rfl, rfl⟩


/-- Whatever `lexOperators` matches is an operator or punctuation
token (never `number`). -/
theorem findOpRule_mem (rules : List (String × Token)) (input : List Char)
    (t : Token) (lbl rest : List Char)
    (h : (rules.findSome? fun r =>
        if r.1.data.isPrefixOf input then some (r.2, r.1.data, input.drop r.1.length)
        else none) = some (t, lbl, rest)) :
    ∃ r ∈ rules, t = r.2 := by
  induction rules with
  | nil => simp [List.findSome?] at h
  | cons r rs ih =>
    rw [List.findSome?_cons] at h
    split at h
    · rename_i b heq
      rw [Option.some.injEq] at h
      subst h
      split at heq
      · rw [Option.some.injEq, Prod.mk.injEq] at heq
        exact ⟨r, List.mem_cons_self r rs, heq.1.symm⟩
      · exact Option.noConfusion heq
    · obtain ⟨r', hr', ht⟩ := ih h
      exact ⟨r', List.mem_cons_of_mem r hr', ht⟩

/-- Whatever `lexOperators` matches carries a token from the operator
and punctuation rule table (never `number`). -/
theorem lexOperators_mem (input : List Char) (t : Token) (lbl rest : List Char)
    (h : lexOperators input = some (t, lbl, rest)) :
    ∃ r ∈ operatorRules, t = r.2 := by
  unfold lexOperators at h
  exact findOpRule_mem operatorRules input t lbl rest h

/-- Any `number` token the lexer produces has a non-empty, all-digit
label: the only rule producing `number` is `/^[0-9]+/`. -/
theorem lexRules_number_label (input lbl rest : List Char)
    (h : lexRules input = some (.tnumber, lbl, rest)) :
    lbl ≠ [] ∧ lbl.all Char.isDigit = true := by
  have hop : ∀ input', lexOperators input' = some (.tnumber, lbl, rest) → False := by
    intro input' h'
    obtain ⟨r, hr, ht⟩ := lexOperators_mem input' _ _ _ h'
    have hno : ∀ x ∈ operatorRules, x.2 ≠ Token.tnumber := by decide
    exact hno r hr ht.symm
  unfold lexRules at h
  split at h
  · simp at h
  · split at h
    · simp at h
    · split at h
      · simp at h
      · split at h
        · simp at h
        · split at h
          · simp at h
          · split at h
            · simp at h
            · split at h
              · simp at h
              · split at h
                · rename_i hdigit
                  rw [Option.some.injEq, Prod.mk.injEq, Prod.mk.injEq] at h
                  obtain ⟨-, hlbl, -⟩ := h
                  subst hlbl
                  refine ⟨by simp, ?_⟩
                  rw [List.all_cons, hdigit, Bool.true_and, List.all_eq_true]
                  intro x hx
                  exact List.mem_takeWhile_imp hx
                · split at h
                  · split at h
                    · simp at h
                    · exact absurd h (fun hh => hop _ hh)
                  · split at h
                    · split at h
                      · simp at h
                      · exact absurd h (fun hh => hop _ hh)
                    · exact absurd h (fun hh => hop _ hh)

/-- C9: numeric literals are exactly non-empty runs of decimal digits
(`/^[0-9]+/`; every `number` token's label is a non-empty all-digit
string), the tokenizer has no rule joining a decimal point into a
number — `1.5` lexes as the three tokens `1`, `.`, `5` — and parsing
`1.5` does not yield a literal but raises a syntax error carrying the
input (the trailing tokens violate the grammar). -/
theorem claim_C9_integer_literals :
    (∀ input lbl rest, lexRules input = some (.tnumber, lbl, rest) →
      lbl ≠ [] ∧ lbl.all Char.isDigit = true) ∧
    tokenize "1.5" = .ok [(.tnumber, "1"), (.tdot, "."), (.tnumber, "5")] ∧
    parse "1.5" = .error "1.5" ∧
    (∀ n, parse "1.5" ≠ .ok n) :=
  ⟨lexRules_number_label, rfl, rfl,
   fun n h => by
     rw [show parse "1.5" = .error "1.5" from rfl] at h
     exact Except.noConfusion h⟩

/-- Witness for C9: the `number` rule at the concrete input `5`. -/
theorem claim_C9_witness :
    (['5'] : List Char) ≠ [] ∧ ['5'].all Char.isDigit = true :=
  claim_C9_integer_literals.1 ['5'] ['5'] [] rfl

/-- C10: a `{` as the very last character, reached in the literal-text
state (the outer scanning loop with the lone brace as the only
remaining character), does not fail and is not emitted as-is: the
scanner appends the brace and then the text `undefined` — the
stringified out-of-range read, nine characters long — to the final
static fragment; in particular `interpolate "a{"` yields a single
`StaticFragment` with text `a{undefined`. -/
theorem claim_C10_trailing_open_brace :
    (∀ (fuel : Nat) (orig text : String) (fragments : NodeList),
      interpOuter (fuel + 1) orig ['{'] text fragments =
        .ok (appendNode fragments
          (.staticFragment ((text.push '{') ++ "undefined")))) ∧
    interpolate "a\x7b" =
      .ok (.interpolated (.cons (.staticFragment "a\x7bundefined") .nil)) ∧
    "undefined".length = 9 :=
  ⟨fun _ _ _ _ => rfl, rfl, rfl⟩

end MvcSpec
